import Mathlib

/-!
Verification development for the spike-sequence generation library
(`func/sequences.py`).

The Python module generates presynaptic spike-time ensembles.  Spike trains
are modelled as lists of rationals; padded ensembles are lists of rows over
`WithTop ℚ`, where `⊤` plays the role of the `np.inf` sentinel.  Randomness
is made explicit: every generator takes a stream `u : ℕ → ℚ` of draws from
the underlying source (unit-exponential or unit-uniform variates, consumed
in order and scaled exactly as NumPy scales them).  Loops of the source
that run until a cumulative sum passes a bound are given explicit fuel; at
every concrete instance used below the loop terminates strictly within the
supplied fuel, so the embedded function agrees with the source there.

The trigonometric/transcendental constants entering only the modulated
rate trace (`np.sin`, `np.pi`, `np.sqrt(2)`) are taken as parameters of the
embedding so that the development stays executable; no claim below depends
on their values.  The non-homogeneous Poisson part (`PreSyn`) is embedded
over `ℝ` with the genuine `Real.exp`, `Real.sqrt` and `Real.pi`.
-/

namespace Sequences

/-- Entry of a padded ensemble: a spike time, or the `np.inf` sentinel. -/
abbrev Entry := WithTop ℚ

/-- Message of the `ValueError` raised by the time-sequence builders. -/
def somethingWrongMsg : String := (r"something wrong")

/-- Message of the `AttributeError` raised when the padding loop of
`assoc_seqs_time_sequence` calls `.append` on a NumPy array. -/
def attrErrMsg : String := (r"AttributeError: numpy.ndarray object has no attribute append")

/-- Message of the `NameError` raised by `gen_poisson_spikes` when it reaches
`warnings.warn` without the `warnings` module ever being imported. -/
def warnNameErrMsg : String := (r"NameError: name warnings is not defined")

/-- Pad a list of rows with the `⊤` sentinel to the maximal row length,
embedding `np.full((len(rates), np.max(num_spikes)), np.inf)` followed by
the row-wise copy `s_k_pad[j, :n] = s`. -/
def padEnsemble (rows : List (List Entry)) : List (List Entry) :=
  let w := (rows.map List.length).foldr max 0
  rows.map (fun r => r ++ List.replicate (w - r.length) (⊤ : Entry))

/-- The `while sum(spike_times) < T - T0: spike_times.append(...)` loop of
`build_rate_seq` (and of the unmodulated rows of `build_rate_seq_modulated`).
Each `np.random.exponential(1/drawRate)` call is `u i / drawRate` for the
next unit-exponential variate `u i`; `fuel` bounds the number of
iterations.  Returns the grown list together with the next stream index. -/
def gapsLoop (u : ℕ → ℚ) (drawRate : ℚ) (limit : ℚ) : ℕ → List ℚ → ℕ → List ℚ × ℕ
  | 0, acc, i => (acc, i)
  | fuel + 1, acc, i =>
    if acc.sum < limit then gapsLoop u drawRate limit fuel (acc ++ [u i / drawRate]) (i + 1)
    else (acc, i)

/-- Running partial sums starting from `acc`, embedding `np.cumsum`. -/
def cumsumF (acc : ℚ) : List ℚ → List ℚ
  | [] => []
  | x :: xs => (acc + x) :: cumsumF (acc + x) xs

/-- One row of `build_rate_seq` / of the unmodulated branches of
`build_rate_seq_modulated`.  The branch condition is on `rate`; the
exponential draws are scaled by `1/drawRate` (the two coincide except in
the modulated builder, where draws use `rate1 = rate*mod_amp*0.6`).  For
`rate ≤ 0` the source sets `spike_times = [np.inf]`: the `while` guard
`sum < T - T0` is then false, `spike_times[:-1]` is empty, and the row is
empty — embedded directly as `[]`, consuming no draws. -/
def rateSeqRowWith (u : ℕ → ℚ) (rate drawRate : ℚ) (T0 T : ℚ) (fuel : ℕ) (i : ℕ) :
    List Entry × ℕ :=
  if 0 < rate then
    let g := gapsLoop u drawRate (T - T0) fuel [u i / drawRate] (i + 1)
    ((cumsumF 0 g.1.dropLast).map (fun x => ((T0 + x : ℚ) : Entry)), g.2)
  else ([], i)

/-- The row loop of `build_rate_seq`, threading the stream index through
successive rows exactly as the shared NumPy generator state is threaded. -/
def rateRows (u : ℕ → ℚ) (T0 T : ℚ) (fuel : ℕ) : List ℚ → ℕ → List (List Entry)
  | [], _ => []
  | r :: rs, i =>
    let rw := rateSeqRowWith u r r T0 T fuel i
    rw.1 :: rateRows u T0 T fuel rs rw.2

/-- `build_rate_seq(rates, T0, T)`: stationary exponential-inter-arrival
Poisson trains with the given rates, padded with the `inf` sentinel.
The stream `u` is the unit-exponential stream installed by the
`np.random.seed(int(time.time()))` call at function entry. -/
def build_rate_seq (u : ℕ → ℚ) (rates : List ℚ) (T0 T : ℚ) (fuel : ℕ) :
    List (List Entry) :=
  padEnsemble (rateRows u T0 T fuel rates 0)

/-- A call of `build_rate_seq` in context: `prng seed` is the variate stream
the NumPy generator produces after `np.random.seed(seed)`, `state0` is the
stream corresponding to the generator state at call time (as set by any
seed chosen externally), and `now` is `int(time.time())`.  The first
statement of the body, `np.random.seed(int(time.time()))`, discards
`state0` and installs `prng now`. -/
def build_rate_seq_run (prng : ℕ → ℕ → ℚ) (state0 : ℕ → ℚ) (now : ℕ)
    (rates : List ℚ) (T0 T : ℚ) (fuel : ℕ) : List (List Entry) :=
  build_rate_seq (prng now) rates T0 T fuel

/-- `np.arange(start, stop, step)` for positive `step`. -/
def arange (start stop step : ℚ) : List ℚ :=
  (List.range (if 0 < step then (⌈(stop - start) / step⌉).toNat else 0)).map
    (fun k : ℕ => start + (k : ℚ) * step)

/-- Inner `while t_spike < t_squ[i+1]` loop of `gen_poisson_spikes` for one
window with rate `fr > 0` and right endpoint `hi`; appends `t_spike + a`
when it stays inside the window and the gap `a` is positive. -/
def genWindow (u : ℕ → ℚ) (fr hi : ℚ) : ℕ → ℚ → ℕ → List ℚ × ℕ
  | 0, _, idx => ([], idx)
  | fuel + 1, t, idx =>
    if t < hi then
      let a := u idx / fr
      let r := genWindow u fr hi fuel (t + a) (idx + 1)
      (if t + a < hi ∧ 0 < a then (t + a) :: r.1 else r.1, r.2)
    else ([], idx)

/-- The window loop `for i, fr in zip(range(t_squ.size - 1), FR)` of
`gen_poisson_spikes`: walks the consecutive window boundaries and the rate
list in lockstep, skipping windows with `fr ≤ 0`. -/
def genWindows (u : ℕ → ℚ) (fuel : ℕ) : List ℚ → List ℚ → ℕ → List ℚ × ℕ
  | lo :: hi :: rest, fr :: frs, idx =>
    if fr ≤ 0 then genWindows u fuel (hi :: rest) frs idx
    else
      let w := genWindow u fr hi fuel lo idx
      let r := genWindows u fuel (hi :: rest) frs w.2
      (w.1 ++ r.1, r.2)
  | _, _, idx => ([], idx)

/-- `gen_poisson_spikes(FR, t_win, dt, tstop)`.  When fewer rates than
windows are supplied the source executes `warnings.warn(...)`, but the
module never imports `warnings`, so the call raises a `NameError` (and the
subsequent `np.append(FR, ...)` would discard its result anyway).  The
parameter `dt` is accepted and unused, as in the source. -/
def gen_poisson_spikes (u : ℕ → ℚ) (FR : List ℚ) (t_win dt tstop : ℚ)
    (fuel : ℕ) (idx : ℕ) : Except String (List ℚ × ℕ) :=
  let _ := dt
  let t_squ := arange 0 (tstop + t_win) t_win
  if FR.length < t_squ.length - 1 then Except.error warnNameErrMsg
  else Except.ok (genWindows u fuel t_squ FR idx)

/-- A sinusoidally modulated row of `build_rate_seq_modulated`: builds the
rate trace `FR` over the time grid, generates spikes, deletes negative
times, sorts, and shifts by `T0`.  For `rate ≤ 0` the source row is
`[np.inf]`; the deletion keeps `inf` (it is not `< 0`), sorting a singleton
and adding `T0` leave it, so the row is `[⊤]`. -/
def modSinRow (u : ℕ → ℚ) (sinq : ℚ → ℚ) (piq : ℚ) (tgrid : List ℚ)
    (T0 T mod_freq rate rate1 t_win dt : ℚ) (fuel idx : ℕ) :
    Except String (List Entry × ℕ) :=
  if 0 < rate then
    let FR := tgrid.map (fun tk => rate1 * sinq (2 * piq * mod_freq * tk / 1000 + piq / 2) + rate1)
    match gen_poisson_spikes u FR t_win dt (T - T0) fuel idx with
    | Except.error e => Except.error e
    | Except.ok g =>
      Except.ok (((List.insertionSort (· ≤ ·) (g.1.filter (fun x => !(decide (x < 0))))).map
        (fun x => ((T0 + x : ℚ) : Entry))), g.2)
  else Except.ok ([(⊤ : Entry)], idx)

/-- One row of `build_rate_seq_modulated`, selecting among the four
branches of the source: `mod_freq == 0` or not, `mod_list` empty or not,
and membership of the row index in `mod_list`. -/
def modRow (u : ℕ → ℚ) (sinq : ℚ → ℚ) (piq sqrt2q : ℚ) (tgrid : List ℚ)
    (T0 T mod_freq : ℚ) (mod_list : List ℕ) (t_win dt mod_amp : ℚ)
    (fuel : ℕ) (i : ℕ) (rate : ℚ) (idx : ℕ) : Except String (List Entry × ℕ) :=
  if mod_freq = 0 then
    if 0 < mod_list.length then
      if i ∈ mod_list then
        Except.ok (rateSeqRowWith u rate (rate * mod_amp * (3 / 5)) T0 T fuel idx)
      else Except.ok (rateSeqRowWith u rate rate T0 T fuel idx)
    else Except.ok (rateSeqRowWith u rate (rate * mod_amp * (3 / 5)) T0 T fuel idx)
  else
    if 0 < mod_list.length then
      if i ∈ mod_list then
        modSinRow u sinq piq tgrid T0 T mod_freq rate (rate * mod_amp / sqrt2q) t_win dt fuel idx
      else Except.ok (rateSeqRowWith u rate rate T0 T fuel idx)
    else modSinRow u sinq piq tgrid T0 T mod_freq rate (rate * mod_amp) t_win dt fuel idx

/-- The row loop of `build_rate_seq_modulated` over the enumerated rates,
threading the stream index; an exception raised in any row aborts the
call. -/
def modRowsGo (u : ℕ → ℚ) (sinq : ℚ → ℚ) (piq sqrt2q : ℚ) (tgrid : List ℚ)
    (T0 T mod_freq : ℚ) (mod_list : List ℕ) (t_win dt mod_amp : ℚ)
    (fuel : ℕ) : List (ℕ × ℚ) → ℕ → Except String (List (List Entry))
  | [], _ => Except.ok []
  | (i, rate) :: rest, idx =>
    match modRow u sinq piq sqrt2q tgrid T0 T mod_freq mod_list t_win dt mod_amp fuel i rate idx with
    | Except.error e => Except.error e
    | Except.ok rw =>
      match modRowsGo u sinq piq sqrt2q tgrid T0 T mod_freq mod_list t_win dt mod_amp fuel rest rw.2 with
      | Except.error e => Except.error e
      | Except.ok rows => Except.ok (rw.1 :: rows)

/-- `build_rate_seq_modulated(rates, T0, T, mod_freq, mod_list, t_win, dt,
mod_amp)`.  `sinq`, `piq` and `sqrt2q` stand for `np.sin`, `np.pi` and
`np.sqrt(2)`; they only enter through the modulated rate trace. -/
def build_rate_seq_modulated (u : ℕ → ℚ) (sinq : ℚ → ℚ) (piq sqrt2q : ℚ)
    (rates : List ℚ) (T0 T mod_freq : ℚ) (mod_list : List ℕ)
    (t_win dt mod_amp : ℚ) (fuel : ℕ) : Except String (List (List Entry)) :=
  match modRowsGo u sinq piq sqrt2q (arange T0 (T + t_win) t_win) T0 T mod_freq
      mod_list t_win dt mod_amp fuel rates.enum 0 with
  | Except.error e => Except.error e
  | Except.ok rows => Except.ok (padEnsemble rows)

/-- One pattern of `sparse_rates`: `1e-3*r_max*(np.random.rand(n) < p_max)`,
with `u (idx + i)` the `i`-th unit-uniform variate of the call. -/
def sparseVec (u : ℕ → ℚ) (idx n : ℕ) (p_max r_max : ℚ) : List ℚ :=
  (List.range n).map (fun i => if u (idx + i) < p_max then r_max / 1000 else 0)

/-- `sparse_rates(p, N_e, N_i, mu, r_max)` starting at stream index `idx`:
each of the `p` patterns draws `N_e + N_i` uniforms and splits the
resulting rate vector into its excitatory and inhibitory halves. -/
def sparse_rates (u : ℕ → ℚ) (p N_e N_i : ℕ) (mu r_max : ℚ) (idx : ℕ) :
    List (List ℚ) × List (List ℚ) :=
  ((List.range p).map (fun k => (sparseVec u (idx + k * (N_e + N_i)) (N_e + N_i) (mu / r_max) r_max).take N_e),
   (List.range p).map (fun k => (sparseVec u (idx + k * (N_e + N_i)) (N_e + N_i) (mu / r_max) r_max).drop N_e))

/-- `np.hstack` of a list of `p`-row blocks: row `k` of the result is the
concatenation of the `k`-th rows of the blocks. -/
def hstackRows {β : Type} (parts : List (List (List β))) (p : ℕ) : List (List β) :=
  (List.range p).map (fun k => (parts.map (fun m => m.getD k [])).flatten)

/-- First-half feature rates of `assoc_rates` (excitatory):
`sparse_rates(p, N_e//2, N_i//2, r_mean, r_max)` with `p = int(num**0.5)`,
consuming the first block of the stream. -/
def assoc_re1 (u : ℕ → ℚ) (num N_e N_i : ℕ) (r_mean r_max : ℚ) : List (List ℚ) :=
  (sparse_rates u (Nat.sqrt num) (N_e / 2) (N_i / 2) r_mean r_max 0).1

/-- First-half feature rates of `assoc_rates` (inhibitory). -/
def assoc_ri1 (u : ℕ → ℚ) (num N_e N_i : ℕ) (r_mean r_max : ℚ) : List (List ℚ) :=
  (sparse_rates u (Nat.sqrt num) (N_e / 2) (N_i / 2) r_mean r_max 0).2

/-- Second-half feature rates of `assoc_rates` (excitatory): the second
`sparse_rates` call, which starts after the `p*(N_e//2 + N_i//2)` uniforms
consumed by the first. -/
def assoc_re2 (u : ℕ → ℚ) (num N_e N_i : ℕ) (r_mean r_max : ℚ) : List (List ℚ) :=
  (sparse_rates u (Nat.sqrt num) (N_e - N_e / 2) (N_i - N_i / 2) r_mean r_max
    (Nat.sqrt num * (N_e / 2 + N_i / 2))).1

/-- Second-half feature rates of `assoc_rates` (inhibitory). -/
def assoc_ri2 (u : ℕ → ℚ) (num N_e N_i : ℕ) (r_mean r_max : ℚ) : List (List ℚ) :=
  (sparse_rates u (Nat.sqrt num) (N_e - N_e / 2) (N_i - N_i / 2) r_mean r_max
    (Nat.sqrt num * (N_e / 2 + N_i / 2))).2

/-- `assoc_rates(num, N_e, N_i, r_mean, r_max)`: for `p = int(num**0.5)`
(equal to `Nat.sqrt num`; the source truncates the float square root),
pattern `(j, k)` is `np.hstack((re1[j], re2[k]))`, appended in row-major
order of `(j, k)`. -/
def assoc_rates (u : ℕ → ℚ) (num N_e N_i : ℕ) (r_mean r_max : ℚ) :
    List (List ℚ) × List (List ℚ) :=
  let p := Nat.sqrt num
  (((List.range p).map (fun j => (List.range p).map
      (fun k => (assoc_re1 u num N_e N_i r_mean r_max).getD j [] ++
                (assoc_re2 u num N_e N_i r_mean r_max).getD k []))).flatten,
   ((List.range p).map (fun j => (List.range p).map
      (fun k => (assoc_ri1 u num N_e N_i r_mean r_max).getD j [] ++
                (assoc_ri2 u num N_e N_i r_mean r_max).getD k []))).flatten)

/-- Fuel-driven core of `itertools.permutations`: for a nonempty list,
emit, for each position `i` in order, the element at `i` followed by the
permutations of the list with position `i` removed.  With fuel `l.length`
this is exactly the lexicographic-by-position order `itertools` yields. -/
def itpermsAux (f : ℕ) (l : List ℕ) : List (List ℕ) :=
  match f with
  | 0 => [[]]
  | n + 1 =>
    if l.length = 0 then [[]]
    else ((List.range l.length).map
      (fun i => (itpermsAux n (l.eraseIdx i)).map (fun t => l.getD i 0 :: t))).flatten

/-- `list(permutations(label))` of `itertools`. -/
def permutationsOf (l : List ℕ) : List (List ℕ) := itpermsAux l.length l

/-- The stacked excitatory rate ensemble `re` of
`assoc_rates_time_squence`: `p` successive `sparse_rates` calls (each
consuming `p*(N_e//p + N_i//p)` uniforms), `np.hstack`-ed so that row `k`
concatenates the `k`-th pattern of every call. -/
def time_re (u : ℕ → ℚ) (p N_e N_i : ℕ) (r_mean r_max : ℚ) : List (List ℚ) :=
  hstackRows ((List.range p).map
    (fun j => (sparse_rates u p (N_e / p) (N_i / p) r_mean r_max
      (j * (p * (N_e / p + N_i / p)))).1)) p

/-- The stacked inhibitory rate ensemble `ri` of `assoc_rates_time_squence`. -/
def time_ri (u : ℕ → ℚ) (p N_e N_i : ℕ) (r_mean r_max : ℚ) : List (List ℚ) :=
  hstackRows ((List.range p).map
    (fun j => (sparse_rates u p (N_e / p) (N_i / p) r_mean r_max
      (j * (p * (N_e / p + N_i / p)))).2)) p

/-- `assoc_rates_time_squence(p, N_e, N_i, r_mean, r_max)`.  The padding
loops of the source call `np.append(re[j], 0.0)` and discard the result,
so they change nothing and are embedded as no-ops; the `ValueError` branch
fires when the remainder `N_e - len(re[0])` (resp. for `ri`) exceeds `p`.
The output appends `re[0]` (resp. `ri[0]`) once per permutation of
`np.arange(p)`. -/
def assoc_rates_time_squence (u : ℕ → ℚ) (p N_e N_i : ℕ) (r_mean r_max : ℚ) :
    Except String (List (List ℚ) × List (List ℚ)) :=
  let re := time_re u p N_e N_i r_mean r_max
  let ri := time_ri u p N_e N_i r_mean r_max
  if p < N_e - (re.getD 0 []).length then Except.error somethingWrongMsg
  else if p < N_i - (ri.getD 0 []).length then Except.error somethingWrongMsg
  else
    let num := (permutationsOf (List.range p)).length
    Except.ok (List.replicate num (re.getD 0 []), List.replicate num (ri.getD 0 []))

/-- `build_seqs(p, N_e, N_i, T0, T, n)` starting at stream index `idx`:
per pattern `k`, `T0 + (T - T0)*np.random.rand(N_e, n)` for the excitatory
block followed by the inhibitory block, variates consumed row-major. -/
def build_seqs (u : ℕ → ℚ) (p N_e N_i : ℕ) (T0 T : ℚ) (n : ℕ) (idx : ℕ) :
    List (List (List ℚ)) × List (List (List ℚ)) :=
  ((List.range p).map (fun k => (List.range N_e).map (fun i => (List.range n).map
      (fun jj => T0 + (T - T0) * u (idx + k * ((N_e + N_i) * n) + i * n + jj)))),
   (List.range p).map (fun k => (List.range N_i).map (fun i => (List.range n).map
      (fun jj => T0 + (T - T0) * u (idx + k * ((N_e + N_i) * n) + N_e * n + i * n + jj)))))

/-- The excitatory blocks built inside one permutation iteration of
`assoc_seqs_time_sequence`: block `i` is `build_seqs` over the window
shifted by `deltaT * order[i]`. -/
def seq_parts_e (u : ℕ → ℚ) (p n_e1 n_i1 : ℕ) (T0 T deltaT : ℚ) (n : ℕ)
    (order : List ℕ) (base : ℕ) : List (List (List (List ℚ))) :=
  (List.range p).map (fun i => (build_seqs u p n_e1 n_i1
    (T0 + deltaT * ((order.getD i 0 : ℕ) : ℚ)) (T + deltaT * ((order.getD i 0 : ℕ) : ℚ)) n
    (base + i * (p * ((n_e1 + n_i1) * n)))).1)

/-- The inhibitory blocks built inside one permutation iteration of
`assoc_seqs_time_sequence`. -/
def seq_parts_i (u : ℕ → ℚ) (p n_e1 n_i1 : ℕ) (T0 T deltaT : ℚ) (n : ℕ)
    (order : List ℕ) (base : ℕ) : List (List (List (List ℚ))) :=
  (List.range p).map (fun i => (build_seqs u p n_e1 n_i1
    (T0 + deltaT * ((order.getD i 0 : ℕ) : ℚ)) (T + deltaT * ((order.getD i 0 : ℕ) : ℚ)) n
    (base + i * (p * ((n_e1 + n_i1) * n)))).2)

/-- One permutation iteration of `assoc_seqs_time_sequence`.  When
`0 < N_e - len(se[0]) ≤ p` the padding loop executes `se[j].append(...)`
on a NumPy array, which has no `append` method: the iteration raises an
`AttributeError`.  When the remainder exceeds `p` it raises the
`ValueError`.  Otherwise synapse `i` of the output pattern concatenates
row `i` of the stacked blocks in the order given by the permutation. -/
def seqPattern (u : ℕ → ℚ) (p N_e N_i : ℕ) (T0 T : ℚ) (n : ℕ) (deltaT : ℚ)
    (jp : ℕ) (order : List ℕ) : Except String (List (List ℚ) × List (List ℚ)) :=
  let n_e1 := N_e / p
  let n_i1 := N_i / p
  let base := jp * (p * (p * ((n_e1 + n_i1) * n)))
  let se := hstackRows (seq_parts_e u p n_e1 n_i1 T0 T deltaT n order base) p
  let si := hstackRows (seq_parts_i u p n_e1 n_i1 T0 T deltaT n order base) p
  let rem_e := N_e - (se.getD 0 []).length
  let rem_i := N_i - (si.getD 0 []).length
  if rem_e ≤ p ∧ 0 < rem_e then Except.error attrErrMsg
  else if p < rem_e then Except.error somethingWrongMsg
  else if rem_i ≤ p ∧ 0 < rem_i then Except.error attrErrMsg
  else if p < rem_i then Except.error somethingWrongMsg
  else
    Except.ok (((List.range (se.getD 0 []).length).map
        (fun i => (order.map (fun k => (se.getD k []).getD i [])).flatten)),
      ((List.range (si.getD 0 []).length).map
        (fun i => (order.map (fun k => (si.getD k []).getD i [])).flatten)))

/-- `assoc_seqs_time_sequence(p, N_e, N_i, T0, T, n, deltaT)`: one pattern
per permutation of `np.arange(p)`; an exception in the first iteration
aborts the call. -/
def assoc_seqs_time_sequence (u : ℕ → ℚ) (p N_e N_i : ℕ) (T0 T : ℚ) (n : ℕ)
    (deltaT : ℚ) : Except String (List (List (List ℚ)) × List (List (List ℚ))) :=
  match (permutationsOf (List.range p)).enum.mapM
      (fun jo => seqPattern u p N_e N_i T0 T n deltaT jo.1 jo.2) with
  | Except.error e => Except.error e
  | Except.ok l => Except.ok (l.map Prod.fst, l.map Prod.snd)

/-- `superimpose(S_1, S_2)`: per synapse, concatenate the two rows into the
`inf`-initialised wide array and sort the row ascending (`S.sort(1)`). -/
def superimpose (S1 S2 : List (List Entry)) : List (List Entry) :=
  List.zipWith (fun r1 r2 => List.insertionSort (· ≤ ·) (r1 ++ r2)) S1 S2

/-- One entry of `translate(S, del_t, T1, T2)`: subtract `del_t`
(elementwise, `inf - del_t = inf`), then wrap entries below `T1` forward by
the period `T2 - T1` (`inf` is never below `T1`). -/
def translateEntry (del_t T1 T2 : ℚ) (x : Entry) : Entry :=
  let y := WithTop.map (fun a => a - del_t) x
  if y < ((T1 : ℚ) : Entry) then y + (((T2 - T1 : ℚ)) : Entry) else y

/-- `translate(S, del_t, T1, T2)` on a padded ensemble. -/
def translate (S : List (List Entry)) (del_t T1 T2 : ℚ) : List (List Entry) :=
  S.map (List.map (translateEntry del_t T1 T2))

/-- A row is ascending (with respect to the order of `WithTop ℚ`, under
which every finite entry is below the sentinel `⊤`). -/
def rowSorted (row : List Entry) : Prop := row.Sorted (· ≤ ·)

/-- Every sentinel entry of a row is followed only by sentinel entries;
equivalently all finite entries precede all sentinels. -/
def sentinelsTrailing (row : List Entry) : Prop :=
  ∀ i j : Fin row.length, i ≤ j → row.get i = ⊤ → row.get j = ⊤

/-- Round-trip relation for `translate`: the resulting entry agrees with
the original modulo the period `P` (sentinels map to sentinels). -/
def modWrapRel (P : ℚ) (z x : Entry) : Prop :=
  (x = ⊤ → z = ⊤) ∧ ∀ a : ℚ, x = (a : Entry) → ∃ k : ℤ, z = ((a + k * P : ℚ) : Entry)

open Classical

/-- The `PreSyn` class: background rate `r_0` (s⁻¹) and the standard
deviation `sigma` (ms) of the precisely timed spikes.  `tau_d` is stored
and never used, as in the source. -/
structure PreSyn where
  r_0 : ℝ
  sigma : ℝ
  tau_d : Option ℝ := none

/-- `gauss_spike_time(t, spike_times, sigma)` at a single time `t`: the sum
over centers of `1/(2*pi*sigma**2)**0.5 * exp(-(t - t_k)**2/(2*sigma**2))`
(the source evaluates this vectorised over `t`). -/
noncomputable def gauss_spike_time (t : ℝ) (spike_times : List ℝ) (sigma : ℝ) : ℝ :=
  (spike_times.map
    (fun t_k => 1 / Real.sqrt (2 * Real.pi * sigma ^ 2) * Real.exp (-(t - t_k) ^ 2 / (2 * sigma ^ 2)))).sum

/-- `PreSyn.rate` at a single time `t`: background on `[t_on, t_off)`
scaled by `1e-3`, the rate-coded stimulus term on `[stim_on, stim_off)`,
resumed background for `t ≥ stim_off` when `t_off ≤ stim_off`, and the
temporally coded Gaussian term when `r > 0` and `s*len(spike_times) > 0`. -/
noncomputable def PreSyn.rate (P : PreSyn) (t t_on t_off stim_on stim_off s r : ℝ)
    (spike_times : List ℝ) : ℝ :=
  (if t_on ≤ t ∧ t < t_off then P.r_0 / 1000 else 0)
  + (if stim_on ≤ t ∧ t < stim_off then (1 - s) * r else 0)
  + (if t_off ≤ stim_off ∧ stim_off ≤ t then P.r_0 / 1000 else 0)
  + (if 0 < r ∧ 0 < s * (spike_times.length : ℝ) then
      r * (stim_off - stim_on) / (spike_times.length : ℝ) * s * gauss_spike_time t spike_times P.sigma
    else 0)

/-- The envelope bound `r_max` computed at the head of `PreSyn.spike_train`. -/
noncomputable def PreSyn.r_max (P : PreSyn) (stim_on stim_off s r : ℝ)
    (spike_times : List ℝ) : ℝ :=
  if 0 < s * (spike_times.length : ℝ) then
    P.r_0 / 1000 + ((1 - s) * r + r * (stim_off - stim_on) / (spike_times.length : ℝ) * s *
      gauss_spike_time 0 [0] P.sigma)
  else P.r_0 / 1000 + r

/-- The acceptance step of the rejection sampler: keep candidate `c.1` when
`rate(c.1)/r_max ≥ c.2`, where `c.2` is the uniform draw paired with the
candidate.  This is the `np.where(rate/r_max >= np.random.rand(...))`
selection of the source; there is no other branch. -/
noncomputable def acceptedTimes (P : PreSyn) (t_on t_off stim_on stim_off s r : ℝ)
    (spike_times : List ℝ) : List (ℝ × ℝ) → List ℝ
  | [] => []
  | c :: rest =>
    (if c.2 ≤ P.rate c.1 t_on t_off stim_on stim_off s r spike_times /
        P.r_max stim_on stim_off s r spike_times then [c.1] else []) ++
    acceptedTimes P t_on t_off stim_on stim_off s r spike_times rest

/-- `PreSyn.spike_train`: the Poisson candidate count and the uniform
candidate positions/acceptance draws are made explicit as `cands` and
`us`.  The body of the source contains no `assert` and no `raise`; the
`Except` result records that every path returns normally with the sorted
accepted subset. -/
noncomputable def PreSyn.spike_train (P : PreSyn) (t_on t_off stim_on stim_off s r : ℝ)
    (spike_times : List ℝ) (cands us : List ℝ) : Except String (List ℝ) :=
  Except.ok (List.insertionSort (· ≤ ·)
    (acceptedTimes P t_on t_off stim_on stim_off s r spike_times (cands.zip us)))

/-! ### Helper lemmas -/

lemma translateEntry_top (d T1 T2 : ℚ) : translateEntry d T1 T2 ⊤ = ⊤ := by
  simp [translateEntry, WithTop.map_top, not_top_lt]

lemma translateEntry_coe (d T1 T2 a : ℚ) :
    translateEntry d T1 T2 (a : Entry) =
      if a - d < T1 then ((a - d + (T2 - T1) : ℚ) : Entry) else ((a - d : ℚ) : Entry) := by
  simp only [translateEntry, WithTop.map_coe]
  split_ifs with h1 h2 h3
  · rw [← WithTop.coe_add]
  · exact absurd (WithTop.coe_lt_coe.mp h1) h2
  · exact absurd (WithTop.coe_lt_coe.mpr h3) h1
  · rfl

lemma translateEntry_roundTrip_mod (d T1 T2 : ℚ) (x : Entry) :
    modWrapRel (T2 - T1) (translateEntry d T1 T2 (translateEntry (-d) T1 T2 x)) x := by
  constructor
  · rintro rfl
    rw [translateEntry_top, translateEntry_top]
  · rintro a rfl
    rw [translateEntry_coe]
    by_cases h1 : a - -d < T1
    · rw [if_pos h1, translateEntry_coe]
      by_cases h2 : a - -d + (T2 - T1) - d < T1
      · rw [if_pos h2]
        exact ⟨2, WithTop.coe_inj.mpr (by push_cast; ring)⟩
      · rw [if_neg h2]
        exact ⟨1, WithTop.coe_inj.mpr (by push_cast; ring)⟩
    · rw [if_neg h1, translateEntry_coe]
      by_cases h2 : a - -d - d < T1
      · rw [if_pos h2]
        exact ⟨1, WithTop.coe_inj.mpr (by push_cast; ring)⟩
      · rw [if_neg h2]
        exact ⟨0, WithTop.coe_inj.mpr (by push_cast; ring)⟩

lemma translateEntry_roundTrip_exact (d T1 T2 a : ℚ) (hd : 0 ≤ d)
    (h1 : T1 ≤ a) (h2 : a < T2) :
    translateEntry d T1 T2 (translateEntry (-d) T1 T2 (a : Entry)) = (a : Entry) := by
  rw [translateEntry_coe, if_neg (not_lt.mpr (by linarith)), translateEntry_coe,
    if_neg (not_lt.mpr (by linarith))]
  exact WithTop.coe_inj.mpr (by ring)

lemma insertionSort_append_comm (l1 l2 : List Entry) :
    List.insertionSort (· ≤ ·) (l1 ++ l2) = List.insertionSort (· ≤ ·) (l2 ++ l1) :=
  List.eq_of_perm_of_sorted
    ((List.perm_insertionSort _ _).trans
      (List.perm_append_comm.trans (List.perm_insertionSort _ _).symm))
    (List.sorted_insertionSort _ _) (List.sorted_insertionSort _ _)

lemma superimpose_comm_of_length (A : List (List Entry)) :
    ∀ B : List (List Entry), A.length = B.length → superimpose A B = superimpose B A := by
  induction A with
  | nil =>
    intro B h
    cases B with
    | nil => rfl
    | cons b bs => simp at h
  | cons a as ih =>
    intro B h
    cases B with
    | nil => simp at h
    | cons b bs =>
      simp only [superimpose, List.zipWith]
      exact congrArg₂ _ (insertionSort_append_comm a b) (ih bs (by simpa using h))

lemma rateSeqRowWith_of_nonpos (u : ℕ → ℚ) (rate drawRate T0 T : ℚ) (fuel i : ℕ)
    (h : ¬ 0 < rate) : rateSeqRowWith u rate drawRate T0 T fuel i = ([], i) := by
  simp [rateSeqRowWith, h]

lemma rateRows_length (u : ℕ → ℚ) (T0 T : ℚ) (fuel : ℕ) :
    ∀ (rs : List ℚ) (i : ℕ), (rateRows u T0 T fuel rs i).length = rs.length := by
  intro rs
  induction rs with
  | nil => intro i; rfl
  | cons r rest ih => intro i; simp [rateRows, ih]

lemma rateRows_getD (u : ℕ → ℚ) (T0 T : ℚ) (fuel : ℕ) :
    ∀ (rs : List ℚ) (i j : ℕ), j < rs.length →
      ∃ i2, (rateRows u T0 T fuel rs i).getD j [] =
        (rateSeqRowWith u (rs.getD j 0) (rs.getD j 0) T0 T fuel i2).1 := by
  intro rs
  induction rs with
  | nil => intro i j hj; exact absurd hj (by simp)
  | cons r rest ih =>
    intro i j hj
    cases j with
    | zero => exact ⟨i, rfl⟩
    | succ j0 =>
      obtain ⟨i2, h2⟩ := ih (rateSeqRowWith u r r T0 T fuel i).2 j0 (by simpa using hj)
      exact ⟨i2, by rw [rateRows]; simpa using h2⟩

lemma padEnsemble_length (rows : List (List Entry)) :
    (padEnsemble rows).length = rows.length := by
  simp [padEnsemble]

lemma padEnsemble_getD (rows : List (List Entry)) (j : ℕ) (hj : j < rows.length) :
    (padEnsemble rows).getD j [] =
      rows.getD j [] ++ List.replicate
        (((rows.map List.length).foldr max 0) - (rows.getD j []).length) (⊤ : Entry) := by
  rw [List.getD_eq_getElem _ _ (by simpa [padEnsemble] using hj),
    List.getD_eq_getElem _ _ hj]
  simp [padEnsemble]

lemma padEnsemble_mem (rows : List (List Entry)) (row : List Entry)
    (h : row ∈ padEnsemble rows) :
    ∃ r ∈ rows, ∃ k, row = r ++ List.replicate k (⊤ : Entry) := by
  simp only [padEnsemble, List.mem_map] at h
  obtain ⟨r, hr, heq⟩ := h
  exact ⟨r, hr, _, heq.symm⟩

lemma sorted_cumsumF (l : List ℚ) : ∀ acc : ℚ, (∀ x ∈ l, 0 ≤ x) →
    List.Sorted (· ≤ ·) (cumsumF acc l) ∧ ∀ y ∈ cumsumF acc l, acc ≤ y := by
  induction l with
  | nil => intro acc _; exact ⟨List.sorted_nil, by simp [cumsumF]⟩
  | cons x xs ih =>
    intro acc h
    have hx : 0 ≤ x := h x (by simp)
    obtain ⟨hs, hge⟩ := ih (acc + x) (fun y hy => h y (by simp [hy]))
    refine ⟨?_, ?_⟩
    · rw [cumsumF, List.sorted_cons]
      exact ⟨fun b hb => hge b hb, hs⟩
    · intro y hy
      rw [cumsumF] at hy
      rcases List.mem_cons.mp hy with h1 | h1
      · rw [h1]; exact le_add_of_nonneg_right hx
      · exact le_trans (le_add_of_nonneg_right hx) (hge y h1)

lemma gapsLoop_mem (u : ℕ → ℚ) (dr limit : ℚ) (P : ℚ → Prop)
    (hdraw : ∀ j, P (u j / dr)) :
    ∀ (fuel : ℕ) (acc : List ℚ) (i : ℕ), (∀ x ∈ acc, P x) →
      ∀ x ∈ (gapsLoop u dr limit fuel acc i).1, P x := by
  intro fuel
  induction fuel with
  | zero => intro acc i hacc x hx; exact hacc x hx
  | succ n ih =>
    intro acc i hacc x hx
    rw [gapsLoop] at hx
    by_cases hc : acc.sum < limit
    · rw [if_pos hc] at hx
      refine ih _ _ (fun y hy => ?_) x hx
      rcases List.mem_append.mp hy with h1 | h1
      · exact hacc y h1
      · have : y = u i / dr := by simpa using h1
        rw [this]; exact hdraw i
    · rw [if_neg hc] at hx
      exact hacc x hx

lemma sorted_map_coe_add (T0 : ℚ) (l : List ℚ) (h : List.Sorted (· ≤ ·) l) :
    List.Sorted (· ≤ ·) (l.map (fun x => ((T0 + x : ℚ) : Entry))) :=
  List.Pairwise.map _ (fun _ _ hab => WithTop.coe_le_coe.mpr (by linarith)) h

lemma sorted_append_replicate_top (r : List Entry) (k : ℕ)
    (h : List.Sorted (· ≤ ·) r) :
    List.Sorted (· ≤ ·) (r ++ List.replicate k (⊤ : Entry)) := by
  rw [List.Sorted, List.pairwise_append]
  refine ⟨h, ?_, fun x _ y hy => by rw [List.eq_of_mem_replicate hy]; exact le_top⟩
  exact List.pairwise_replicate.mpr (Or.inr le_rfl)

lemma rateSeqRowWith_sorted (u : ℕ → ℚ) (rate drawRate T0 T : ℚ) (fuel i : ℕ)
    (hu : ∀ j, 0 ≤ u j) (hdr : 0 < rate → 0 ≤ drawRate) :
    List.Sorted (· ≤ ·) (rateSeqRowWith u rate drawRate T0 T fuel i).1 := by
  by_cases h : 0 < rate
  · rw [rateSeqRowWith, if_pos h]
    dsimp only
    apply sorted_map_coe_add
    refine (sorted_cumsumF _ 0 ?_).1
    intro x hx
    refine gapsLoop_mem u drawRate (T - T0) (fun y => 0 ≤ y)
      (fun j => div_nonneg (hu j) (hdr h)) fuel _ (i + 1) ?_ x
      (List.dropLast_subset _ hx)
    intro y hy
    have : y = u i / drawRate := by simpa using hy
    rw [this]; exact div_nonneg (hu i) (hdr h)
  · rw [rateSeqRowWith_of_nonpos u rate drawRate T0 T fuel i h]
    exact List.sorted_nil

lemma modSinRow_sorted (u : ℕ → ℚ) (sinq : ℚ → ℚ) (piq : ℚ) (tgrid : List ℚ)
    (T0 T mod_freq rate rate1 t_win dt : ℚ) (fuel idx : ℕ)
    (out : List Entry × ℕ)
    (hout : modSinRow u sinq piq tgrid T0 T mod_freq rate rate1 t_win dt fuel idx =
      Except.ok out) :
    List.Sorted (· ≤ ·) out.1 := by
  rw [modSinRow] at hout
  by_cases h : 0 < rate
  · rw [if_pos h] at hout
    cases hg : gen_poisson_spikes u
        (tgrid.map (fun tk => rate1 * sinq (2 * piq * mod_freq * tk / 1000 + piq / 2) + rate1))
        t_win dt (T - T0) fuel idx with
    | error e => simp only [hg] at hout; exact absurd hout (by simp)
    | ok g =>
      simp only [hg] at hout
      have hX := Except.ok.inj hout
      rw [← hX]
      exact sorted_map_coe_add T0 _ (List.sorted_insertionSort _ _)
  · rw [if_neg h] at hout
    have : out.1 = [(⊤ : Entry)] := by cases hout; rfl
    rw [this]
    exact List.sorted_singleton _

lemma modRow_sorted (u : ℕ → ℚ) (sinq : ℚ → ℚ) (piq sqrt2q : ℚ) (tgrid : List ℚ)
    (T0 T mod_freq : ℚ) (mod_list : List ℕ) (t_win dt mod_amp : ℚ)
    (fuel : ℕ) (i : ℕ) (rate : ℚ) (idx : ℕ) (out : List Entry × ℕ)
    (hu : ∀ j, 0 ≤ u j) (hamp : 0 ≤ mod_amp)
    (hout : modRow u sinq piq sqrt2q tgrid T0 T mod_freq mod_list t_win dt mod_amp
      fuel i rate idx = Except.ok out) :
    List.Sorted (· ≤ ·) out.1 := by
  have hdr1 : 0 < rate → 0 ≤ rate * mod_amp * (3 / 5) := fun hr => by positivity
  have hdr2 : 0 < rate → (0 : ℚ) ≤ rate := fun hr => le_of_lt hr
  rw [modRow] at hout
  split_ifs at hout with h1 h2 h3 h4 h5
  · have : out = rateSeqRowWith u rate (rate * mod_amp * (3 / 5)) T0 T fuel idx := by
      cases hout; rfl
    rw [this]; exact rateSeqRowWith_sorted u rate _ T0 T fuel idx hu hdr1
  · have : out = rateSeqRowWith u rate rate T0 T fuel idx := by cases hout; rfl
    rw [this]; exact rateSeqRowWith_sorted u rate rate T0 T fuel idx hu hdr2
  · have : out = rateSeqRowWith u rate (rate * mod_amp * (3 / 5)) T0 T fuel idx := by
      cases hout; rfl
    rw [this]; exact rateSeqRowWith_sorted u rate _ T0 T fuel idx hu hdr1
  · exact modSinRow_sorted u sinq piq tgrid T0 T mod_freq rate _ t_win dt fuel idx out hout
  · have : out = rateSeqRowWith u rate rate T0 T fuel idx := by cases hout; rfl
    rw [this]; exact rateSeqRowWith_sorted u rate rate T0 T fuel idx hu hdr2
  · exact modSinRow_sorted u sinq piq tgrid T0 T mod_freq rate _ t_win dt fuel idx out hout

lemma modRowsGo_sorted (u : ℕ → ℚ) (sinq : ℚ → ℚ) (piq sqrt2q : ℚ) (tgrid : List ℚ)
    (T0 T mod_freq : ℚ) (mod_list : List ℕ) (t_win dt mod_amp : ℚ) (fuel : ℕ)
    (hu : ∀ j, 0 ≤ u j) (hamp : 0 ≤ mod_amp) :
    ∀ (l : List (ℕ × ℚ)) (idx : ℕ) (rows : List (List Entry)),
      modRowsGo u sinq piq sqrt2q tgrid T0 T mod_freq mod_list t_win dt mod_amp fuel
        l idx = Except.ok rows →
      ∀ row ∈ rows, List.Sorted (· ≤ ·) row := by
  intro l
  induction l with
  | nil =>
    intro idx rows hrows row hrow
    rw [modRowsGo] at hrows
    cases hrows
    exact absurd hrow (by simp)
  | cons hd tl ih =>
    intro idx rows hrows row hrow
    rw [modRowsGo] at hrows
    cases hhd : modRow u sinq piq sqrt2q tgrid T0 T mod_freq mod_list t_win dt mod_amp
        fuel hd.1 hd.2 idx with
    | error e => simp only [hhd] at hrows; exact absurd hrows (by simp)
    | ok rw0 =>
      simp only [hhd] at hrows
      cases htl : modRowsGo u sinq piq sqrt2q tgrid T0 T mod_freq mod_list t_win dt
          mod_amp fuel tl rw0.2 with
      | error e => simp only [htl] at hrows; exact absurd hrows (by simp)
      | ok rows0 =>
        simp only [htl] at hrows
        have hcons : rw0.1 :: rows0 = rows := Except.ok.inj hrows
        rw [← hcons] at hrow
        rcases List.mem_cons.mp hrow with h1 | h1
        · rw [h1]
          exact modRow_sorted u sinq piq sqrt2q tgrid T0 T mod_freq mod_list t_win dt
            mod_amp fuel hd.1 hd.2 idx rw0 hu hamp hhd
        · exact ih rw0.2 rows0 htl row h1

lemma rateRows_sorted (u : ℕ → ℚ) (T0 T : ℚ) (fuel : ℕ) (hu : ∀ j, 0 ≤ u j) :
    ∀ (rs : List ℚ) (i : ℕ), ∀ row ∈ rateRows u T0 T fuel rs i,
      List.Sorted (· ≤ ·) row := by
  intro rs
  induction rs with
  | nil => intro i row hrow; exact absurd hrow (by simp [rateRows])
  | cons r rest ih =>
    intro i row hrow
    rw [rateRows] at hrow
    rcases List.mem_cons.mp hrow with h1 | h1
    · rw [h1]
      exact rateSeqRowWith_sorted u r r T0 T fuel i hu (fun hr => le_of_lt hr)
    · exact ih _ row h1

lemma superimpose_mem (A : List (List Entry)) :
    ∀ (B : List (List Entry)) (row : List Entry), row ∈ superimpose A B →
      ∃ r1 r2, row = List.insertionSort (· ≤ ·) (r1 ++ r2) := by
  induction A with
  | nil => intro B row hrow; exact absurd hrow (by simp [superimpose])
  | cons a as ih =>
    intro B row hrow
    cases B with
    | nil => exact absurd hrow (by simp [superimpose])
    | cons b bs =>
      rcases List.mem_cons.mp hrow with h1 | h1
      · exact ⟨a, b, h1⟩
      · exact ih bs row h1

lemma sentinelsTrailing_of_sorted (row : List Entry) (h : rowSorted row) :
    sentinelsTrailing row := by
  intro i j hij htop
  have hle := List.Sorted.rel_get_of_le h hij
  rw [htop] at hle
  exact top_le_iff.mp hle

/-! ### Claim theorems -/

/-- C9: within each row of every padded ensemble produced by
`build_rate_seq`, by `build_rate_seq_modulated` (when it returns) and by
`superimpose`, the entries are sorted ascending and every finite entry
precedes every infinite sentinel entry.  The stream hypothesis records
that exponential variates are nonnegative; `0 ≤ mod_amp` excludes the
calls in which NumPy would reject a negative exponential scale
(`rate1 = rate*mod_amp*0.6 < 0`) before producing any ensemble. -/
theorem c9_sorted_invariant :
    (∀ (u : ℕ → ℚ) (rates : List ℚ) (T0 T : ℚ) (fuel : ℕ), (∀ j, 0 ≤ u j) →
      ∀ row ∈ build_rate_seq u rates T0 T fuel, rowSorted row ∧ sentinelsTrailing row)
    ∧ (∀ (u : ℕ → ℚ) (sinq : ℚ → ℚ) (piq sqrt2q : ℚ) (rates : List ℚ)
        (T0 T mod_freq : ℚ) (mod_list : List ℕ) (t_win dt mod_amp : ℚ) (fuel : ℕ)
        (out : List (List Entry)), (∀ j, 0 ≤ u j) → 0 ≤ mod_amp →
        build_rate_seq_modulated u sinq piq sqrt2q rates T0 T mod_freq mod_list
          t_win dt mod_amp fuel = Except.ok out →
        ∀ row ∈ out, rowSorted row ∧ sentinelsTrailing row)
    ∧ (∀ A B : List (List Entry), ∀ row ∈ superimpose A B,
        rowSorted row ∧ sentinelsTrailing row) := by
  refine ⟨?_, ?_, ?_⟩
  · intro u rates T0 T fuel hu row hrow
    obtain ⟨r, hr, k, heq⟩ := padEnsemble_mem _ row hrow
    have hs : rowSorted row := by
      rw [heq]
      exact sorted_append_replicate_top r k (rateRows_sorted u T0 T fuel hu rates 0 r hr)
    exact ⟨hs, sentinelsTrailing_of_sorted row hs⟩
  · intro u sinq piq sqrt2q rates T0 T mod_freq mod_list t_win dt mod_amp fuel out
      hu hamp hout row hrow
    rw [build_rate_seq_modulated] at hout
    cases hgo : modRowsGo u sinq piq sqrt2q (arange T0 (T + t_win) t_win) T0 T mod_freq
        mod_list t_win dt mod_amp fuel rates.enum 0 with
    | error e => rw [hgo] at hout; exact absurd hout (by simp)
    | ok rows =>
      rw [hgo] at hout
      have hpad := Except.ok.inj hout
      rw [← hpad] at hrow
      obtain ⟨r, hr, k, heq⟩ := padEnsemble_mem _ row hrow
      have hs : rowSorted row := by
        rw [heq]
        exact sorted_append_replicate_top r k
          (modRowsGo_sorted u sinq piq sqrt2q (arange T0 (T + t_win) t_win) T0 T mod_freq
            mod_list t_win dt mod_amp fuel hu hamp rates.enum 0 rows hgo r hr)
      exact ⟨hs, sentinelsTrailing_of_sorted row hs⟩
  · intro A B row hrow
    obtain ⟨r1, r2, heq⟩ := superimpose_mem A B row hrow
    have hs : rowSorted row := by
      rw [heq]; exact List.sorted_insertionSort _ _
    exact ⟨hs, sentinelsTrailing_of_sorted row hs⟩

/-- Witness for C9 at concrete inputs: a plain `build_rate_seq` call, a
`build_rate_seq_modulated` call on the `mod_freq = 0` path, and a
`superimpose` call. -/
theorem c9_witness :
    (∀ j : ℕ, (0:ℚ) ≤ (fun _ => (1:ℚ)) j) ∧ (0:ℚ) ≤ 5/2 ∧
    (∀ row ∈ build_rate_seq (fun _ => 1) [1/10] 0 25 8,
      rowSorted row ∧ sentinelsTrailing row) ∧
    (∀ out, build_rate_seq_modulated (fun _ => 1) (fun _ => 0) 0 0 [(0:ℚ)] 0 25 0 []
        10 (1/10) (5/2) 8 = Except.ok out →
      ∀ row ∈ out, rowSorted row ∧ sentinelsTrailing row) ∧
    (∀ row ∈ superimpose [[((1:ℚ) : Entry), ⊤]] [[((3:ℚ) : Entry), ⊤]],
      rowSorted row ∧ sentinelsTrailing row) :=
  ⟨fun _ => by norm_num, by norm_num,
   c9_sorted_invariant.1 (fun _ => 1) [1/10] 0 25 8 (fun _ => by norm_num),
   fun out hout => c9_sorted_invariant.2.1 (fun _ => 1) (fun _ => 0) 0 0 [(0:ℚ)] 0 25 0 []
     10 (1/10) (5/2) 8 out (fun _ => by norm_num) (by norm_num) hout,
   c9_sorted_invariant.2.2 [[((1:ℚ) : Entry), ⊤]] [[((3:ℚ) : Entry), ⊤]]⟩

/-- C7 (amended): the round trip `translate(translate(S, -d, T1, T2), d,
T1, T2)` agrees with `S` entrywise modulo the period `T2 - T1` for every
shift `d`; and an entry inside the window `[T1, T2)` is restored exactly
whenever `d ≥ 0`.  (For `d < 0` an in-window entry whose intermediate
translate wrapped comes back shifted up by exactly one period — see the
counterexample — so exact restoration cannot be claimed for all `|d|`
smaller than the period.) -/
theorem c7_amended_roundtrip :
    (∀ (S : List (List Entry)) (d T1 T2 : ℚ),
      List.Forall₂ (List.Forall₂ (modWrapRel (T2 - T1)))
        (translate (translate S (-d) T1 T2) d T1 T2) S)
    ∧ (∀ d T1 T2 a : ℚ, 0 ≤ d → T1 ≤ a → a < T2 →
        translateEntry d T1 T2 (translateEntry (-d) T1 T2 (a : Entry)) = (a : Entry)) := by
  constructor
  · intro S d T1 T2
    rw [translate, translate, List.map_map]
    rw [List.forall₂_map_left_iff]
    refine List.forall₂_same.mpr ?_
    intro row _
    dsimp only [Function.comp]
    rw [List.map_map, List.forall₂_map_left_iff]
    refine List.forall₂_same.mpr ?_
    intro x _
    exact translateEntry_roundTrip_mod d T1 T2 x
  · intro d T1 T2 a hd h1 h2
    exact translateEntry_roundTrip_exact d T1 T2 a hd h1 h2

/-- C7 counterexample: with `d = -3` (magnitude `3` smaller than the
period `10`), the entry `1` lies inside `[0, 10)` but the round trip
returns `11 = 1 + period`, not `1`: in-window entries are not restored
exactly for negative shifts. -/
theorem c7_counterexample :
    |(-3 : ℚ)| < 10 - 0 ∧
    translate (translate [[((1:ℚ) : Entry)]] (-(-3) : ℚ) 0 10) (-3 : ℚ) 0 10 ≠
      [[((1:ℚ) : Entry)]] := by
  refine ⟨by norm_num, ?_⟩
  have h1 : translate [[((1:ℚ) : Entry)]] (-(-3) : ℚ) 0 10 = [[((8:ℚ) : Entry)]] := by
    rw [translate]
    simp only [List.map_cons, List.map_nil, translateEntry_coe]
    norm_num
  have h2 : translate [[((8:ℚ) : Entry)]] (-3 : ℚ) 0 10 = [[((11:ℚ) : Entry)]] := by
    rw [translate]
    simp only [List.map_cons, List.map_nil, translateEntry_coe]
    norm_num
  rw [h1, h2]
  intro h
  simp only [List.cons.injEq, and_true, WithTop.coe_eq_coe] at h
  exact absurd h (by norm_num)

/-- Witness for C7 at a concrete input: `d = 3 ≥ 0`, entry `1 ∈ [0, 10)`
is restored exactly, and the modulo-period relation at the counterexample
ensemble. -/
theorem c7_witness :
    ((0:ℚ) ≤ 3 ∧ (0:ℚ) ≤ 1 ∧ (1:ℚ) < 10) ∧
    translateEntry 3 0 10 (translateEntry (-3 : ℚ) 0 10 ((1:ℚ) : Entry)) = ((1:ℚ) : Entry) ∧
    List.Forall₂ (List.Forall₂ (modWrapRel ((10:ℚ) - 0)))
      (translate (translate [[((1:ℚ) : Entry)]] (-(-3) : ℚ) 0 10) (-3 : ℚ) 0 10)
      [[((1:ℚ) : Entry)]] :=
  ⟨⟨by norm_num, by norm_num, by norm_num⟩,
   c7_amended_roundtrip.2 3 0 10 1 (by norm_num) (by norm_num) (by norm_num),
   c7_amended_roundtrip.1 [[((1:ℚ) : Entry)]] (-3) 0 10⟩

/-- C8: on ensembles with the same number of rows, `superimpose` is
commutative (both orders sort each combined row ascending), and the
concrete scenario `superimpose([[1,2,inf]], [[0.5,inf,inf]])` yields
`[[0.5,1,2,inf,inf,inf]]` with the sentinels trailing. -/
theorem c8_superimpose_comm :
    (∀ A B : List (List Entry), A.length = B.length →
      superimpose A B = superimpose B A)
    ∧ superimpose [[((1:ℚ) : Entry), ((2:ℚ) : Entry), ⊤]]
        [[((1/2 : ℚ) : Entry), ⊤, ⊤]] =
      [[((1/2 : ℚ) : Entry), ((1:ℚ) : Entry), ((2:ℚ) : Entry), ⊤, ⊤, ⊤]] := by
  refine ⟨superimpose_comm_of_length, ?_⟩
  have c1 : ¬ ((⊤ : Entry) ≤ ((1/2 : ℚ) : Entry)) := by simp
  have c2 : ¬ (((2:ℚ) : Entry) ≤ ((1/2 : ℚ) : Entry)) := by
    rw [WithTop.coe_le_coe]; norm_num
  have c3 : ¬ (((1:ℚ) : Entry) ≤ ((1/2 : ℚ) : Entry)) := by
    rw [WithTop.coe_le_coe]; norm_num
  have c4 : ((1:ℚ) : Entry) ≤ ((2:ℚ) : Entry) := by
    rw [WithTop.coe_le_coe]; norm_num
  rw [superimpose]
  simp only [List.zipWith, List.cons_append, List.nil_append, List.insertionSort,
    List.orderedInsert, c1, c2, c3, c4, le_top, le_refl, if_true, if_false,
    ite_true, ite_false]

/-- Witness for C8 at the concrete ensembles of the claim. -/
theorem c8_witness :
    ([[((1:ℚ) : Entry), ((2:ℚ) : Entry), ⊤]] : List (List Entry)).length =
      ([[((1/2 : ℚ) : Entry), ⊤, ⊤]] : List (List Entry)).length ∧
    superimpose [[((1:ℚ) : Entry), ((2:ℚ) : Entry), ⊤]] [[((1/2 : ℚ) : Entry), ⊤, ⊤]] =
      superimpose [[((1/2 : ℚ) : Entry), ⊤, ⊤]] [[((1:ℚ) : Entry), ((2:ℚ) : Entry), ⊤]] :=
  ⟨rfl, c8_superimpose_comm.1 _ _ rfl⟩

/-- C2 (amended): the output of `build_rate_seq` is a deterministic
function of the wall-clock value `int(time.time())` at invocation and of
the arguments; the generator state installed by any externally fixed seed
is discarded by the `np.random.seed(int(time.time()))` call at entry, so
it has no influence on the result. -/
theorem c2_amended_wall_clock_determinism :
    ∀ (prng : ℕ → ℕ → ℚ) (s1 s2 : ℕ → ℚ) (now : ℕ) (rates : List ℚ)
      (T0 T : ℚ) (fuel : ℕ),
      build_rate_seq_run prng s1 now rates T0 T fuel =
        build_rate_seq_run prng s2 now rates T0 T fuel :=
  fun _ _ _ _ _ _ _ _ => rfl

/-- C2 counterexample: two calls of `build_rate_seq([0.01], 0, 1000)` with
the same externally fixed seed (the same entry state `fun _ => 0`) but
wall-clock seconds `0` and `1` produce different spike rows (nine spikes
of gap `100` versus four spikes of gap `200`), so the output is not a
deterministic function of the external seed and the arguments. -/
theorem c2_counterexample :
    build_rate_seq_run (fun seed _ => (seed : ℚ) + 1) (fun _ => 0) 0 [1/100] 0 1000 16 ≠
      build_rate_seq_run (fun seed _ => (seed : ℚ) + 1) (fun _ => 0) 1 [1/100] 0 1000 16 := by
  have h0 : build_rate_seq_run (fun seed _ => (seed : ℚ) + 1) (fun _ => 0) 0
      [1/100] 0 1000 16 =
      [[((100:ℚ) : Entry), ((200:ℚ) : Entry), ((300:ℚ) : Entry), ((400:ℚ) : Entry),
        ((500:ℚ) : Entry), ((600:ℚ) : Entry), ((700:ℚ) : Entry), ((800:ℚ) : Entry),
        ((900:ℚ) : Entry)]] := by
    norm_num [build_rate_seq_run, build_rate_seq, rateRows, rateSeqRowWith, gapsLoop,
      cumsumF, padEnsemble, List.dropLast]
  have h1 : build_rate_seq_run (fun seed _ => (seed : ℚ) + 1) (fun _ => 0) 1
      [1/100] 0 1000 16 =
      [[((200:ℚ) : Entry), ((400:ℚ) : Entry), ((600:ℚ) : Entry), ((800:ℚ) : Entry)]] := by
    norm_num [build_rate_seq_run, build_rate_seq, rateRows, rateSeqRowWith, gapsLoop,
      cumsumF, padEnsemble, List.dropLast]
  rw [h0, h1]
  simp

/-- C6: a zero entry in `rates` makes the corresponding row of
`build_rate_seq` contain no finite spike time: after padding the row is
entirely the `inf` sentinel. -/
theorem c6_zero_rate_all_inf :
    ∀ (u : ℕ → ℚ) (rates : List ℚ) (T0 T : ℚ) (fuel : ℕ) (j : ℕ),
      j < rates.length → rates.getD j 0 = 0 →
      ∀ x ∈ (build_rate_seq u rates T0 T fuel).getD j [], x = (⊤ : Entry) := by
  intro u rates T0 T fuel j hj hzero x hx
  have hj2 : j < (rateRows u T0 T fuel rates 0).length := by
    rw [rateRows_length]; exact hj
  obtain ⟨i2, hrow⟩ := rateRows_getD u T0 T fuel rates 0 j hj
  rw [build_rate_seq, padEnsemble_getD _ j hj2, hrow, hzero,
    rateSeqRowWith_of_nonpos u 0 0 T0 T fuel i2 (by norm_num)] at hx
  simp only [List.nil_append] at hx
  exact List.eq_of_mem_replicate hx

/-- Witness for C6: `build_rate_seq([0, 0.1], 0, 25)`: row `0` has rate
`0` and is all-`inf` after padding. -/
theorem c6_witness :
    0 < ([0, 1/10] : List ℚ).length ∧ ([0, 1/10] : List ℚ).getD 0 0 = 0 ∧
    ∀ x ∈ (build_rate_seq (fun _ => 1) [0, 1/10] 0 25 8).getD 0 [], x = (⊤ : Entry) :=
  ⟨by norm_num, rfl,
   c6_zero_rate_all_inf (fun _ => 1) [0, 1/10] 0 25 8 0 (by norm_num) rfl⟩

/-! ### Lemmas for the pattern/rate-ensemble builders -/

lemma getD_range_map {β : Type} (g : ℕ → β) (p k : ℕ) (hk : k < p) (d : β) :
    ((List.range p).map g).getD k d = g k := by
  rw [List.getD_eq_getElem _ _ (by simpa using hk)]
  simp

lemma sum_map_const_range (p c : ℕ) : ((List.range p).map (fun _ => c)).sum = p * c := by
  induction p with
  | zero => simp
  | succ n ih =>
    rw [List.range_succ, List.map_append, List.sum_append, ih]
    simp [Nat.succ_mul]

lemma itpermsAux_length : ∀ (f : ℕ) (l : List ℕ), l.length = f →
    (itpermsAux f l).length = Nat.factorial f := by
  intro f
  induction f with
  | zero => intro l _; rfl
  | succ n ih =>
    intro l h
    rw [itpermsAux, if_neg (by rw [h]; simp), List.length_flatten, List.map_map]
    have hmap : (List.range l.length).map
        (List.length ∘ fun i => (itpermsAux n (l.eraseIdx i)).map (fun t => l.getD i 0 :: t)) =
        (List.range l.length).map (fun _ => Nat.factorial n) := by
      refine List.map_congr_left ?_
      intro i hi
      have hi2 : i < l.length := List.mem_range.mp hi
      simp only [Function.comp, List.length_map]
      refine ih (l.eraseIdx i) ?_
      have := List.length_eraseIdx_add_one hi2
      omega
    rw [hmap, sum_map_const_range, h, Nat.factorial_succ]

lemma permutationsOf_length (l : List ℕ) :
    (permutationsOf l).length = Nat.factorial l.length :=
  itpermsAux_length l.length l rfl

lemma permutationsOf_range_length (p : ℕ) :
    (permutationsOf (List.range p)).length = Nat.factorial p := by
  rw [permutationsOf_length, List.length_range]

lemma sparse_rates_fst_getD_length (u : ℕ → ℚ) (p N_e N_i : ℕ) (mu r_max : ℚ)
    (idx : ℕ) (k : ℕ) (hk : k < p) :
    (((sparse_rates u p N_e N_i mu r_max idx).1).getD k []).length = N_e := by
  rw [sparse_rates]
  dsimp only
  rw [getD_range_map _ p k hk]
  simp [sparseVec]

lemma time_re_row0_length (u : ℕ → ℚ) (p N_e N_i : ℕ) (r_mean r_max : ℚ)
    (hp : 1 ≤ p) :
    ((time_re u p N_e N_i r_mean r_max).getD 0 []).length = p * (N_e / p) := by
  rw [time_re, hstackRows, getD_range_map _ p 0 hp, List.map_map]
  rw [List.length_flatten, List.map_map]
  have hmap : (List.range p).map
      (List.length ∘ (fun m => m.getD 0 []) ∘ fun j =>
        (sparse_rates u p (N_e / p) (N_i / p) r_mean r_max
          (j * (p * (N_e / p + N_i / p)))).1) =
      (List.range p).map (fun _ => N_e / p) := by
    refine List.map_congr_left ?_
    intro j _
    simp only [Function.comp]
    exact sparse_rates_fst_getD_length u p (N_e / p) (N_i / p) r_mean r_max _ 0 hp
  rw [hmap, sum_map_const_range]

lemma time_ri_row0_length (u : ℕ → ℚ) (p N_e N_i : ℕ) (r_mean r_max : ℚ)
    (hp : 1 ≤ p) :
    ((time_ri u p N_e N_i r_mean r_max).getD 0 []).length = p * (N_i / p) := by
  rw [time_ri, hstackRows, getD_range_map _ p 0 hp, List.map_map]
  rw [List.length_flatten, List.map_map]
  have hmap : (List.range p).map
      (List.length ∘ (fun m => m.getD 0 []) ∘ fun j =>
        (sparse_rates u p (N_e / p) (N_i / p) r_mean r_max
          (j * (p * (N_e / p + N_i / p)))).2) =
      (List.range p).map (fun _ => N_i / p) := by
    refine List.map_congr_left ?_
    intro j _
    simp only [Function.comp]
    rw [sparse_rates]
    dsimp only
    rw [getD_range_map _ p 0 hp]
    simp [sparseVec]
  rw [hmap, sum_map_const_range]

lemma time_squence_ok (u : ℕ → ℚ) (p N_e N_i : ℕ) (r_mean r_max : ℚ) (hp : 1 ≤ p) :
    assoc_rates_time_squence u p N_e N_i r_mean r_max =
      Except.ok
        (List.replicate (Nat.factorial p) ((time_re u p N_e N_i r_mean r_max).getD 0 []),
         List.replicate (Nat.factorial p) ((time_ri u p N_e N_i r_mean r_max).getD 0 [])) := by
  rw [assoc_rates_time_squence]
  have hmod_e := Nat.mod_add_div N_e p
  have hmod_i := Nat.mod_add_div N_i p
  have hlt_e := Nat.mod_lt N_e (show 0 < p from hp)
  have hlt_i := Nat.mod_lt N_i (show 0 < p from hp)
  rw [if_neg (by rw [time_re_row0_length u p N_e N_i r_mean r_max hp]; omega),
    if_neg (by rw [time_ri_row0_length u p N_e N_i r_mean r_max hp]; omega)]
  rw [permutationsOf_range_length]

lemma flatten_getD_blocks {β : Type} (c : ℕ) (d : β) :
    ∀ (L : List (List β)) (j k : ℕ), j < L.length → k < c →
      (∀ b ∈ L, b.length = c) →
      L.flatten.getD (j * c + k) d = (L.getD j []).getD k d := by
  intro L
  induction L with
  | nil => intro j k hj _ _; exact absurd hj (by simp)
  | cons b bs ih =>
    intro j k hj hk hlen
    cases j with
    | zero =>
      rw [List.flatten_cons, Nat.zero_mul, Nat.zero_add,
        List.getD_append _ _ _ _ (by rw [hlen b (by simp)]; exact hk)]
      simp
    | succ j0 =>
      have hb : b.length = c := hlen b (by simp)
      rw [List.flatten_cons,
        List.getD_append_right _ _ _ _ (by rw [hb]; nlinarith [Nat.succ_mul j0 c])]
      have hidx : (j0 + 1) * c + k - b.length = j0 * c + k := by
        rw [hb, Nat.succ_mul]; omega
      rw [hidx]
      have hrec := ih j0 k (by simpa using hj) hk (fun x hx => hlen x (by simp [hx]))
      rw [hrec]
      simp

lemma build_seqs_fst_getD_length (u : ℕ → ℚ) (p N_e N_i : ℕ) (T0 T : ℚ) (n : ℕ)
    (idx : ℕ) (k : ℕ) (hk : k < p) :
    (((build_seqs u p N_e N_i T0 T n idx).1).getD k []).length = N_e := by
  rw [build_seqs]
  dsimp only
  rw [getD_range_map _ p k hk]
  simp

lemma build_seqs_snd_getD_length (u : ℕ → ℚ) (p N_e N_i : ℕ) (T0 T : ℚ) (n : ℕ)
    (idx : ℕ) (k : ℕ) (hk : k < p) :
    (((build_seqs u p N_e N_i T0 T n idx).2).getD k []).length = N_i := by
  rw [build_seqs]
  dsimp only
  rw [getD_range_map _ p k hk]
  simp

lemma seq_se_row0_length (u : ℕ → ℚ) (p n_e1 n_i1 : ℕ) (T0 T deltaT : ℚ) (n : ℕ)
    (order : List ℕ) (base : ℕ) (hp : 1 ≤ p) :
    ((hstackRows (seq_parts_e u p n_e1 n_i1 T0 T deltaT n order base) p).getD 0 []).length =
      p * n_e1 := by
  rw [hstackRows, getD_range_map _ p 0 hp, seq_parts_e, List.map_map]
  rw [List.length_flatten, List.map_map]
  have hmap : (List.range p).map
      (List.length ∘ (fun m => m.getD 0 []) ∘ fun i =>
        (build_seqs u p n_e1 n_i1 (T0 + deltaT * ((order.getD i 0 : ℕ) : ℚ))
          (T + deltaT * ((order.getD i 0 : ℕ) : ℚ)) n
          (base + i * (p * ((n_e1 + n_i1) * n)))).1) =
      (List.range p).map (fun _ => n_e1) := by
    refine List.map_congr_left ?_
    intro i _
    simp only [Function.comp]
    exact build_seqs_fst_getD_length u p n_e1 n_i1 _ _ n _ 0 hp
  rw [hmap, sum_map_const_range]

lemma seq_si_row0_length (u : ℕ → ℚ) (p n_e1 n_i1 : ℕ) (T0 T deltaT : ℚ) (n : ℕ)
    (order : List ℕ) (base : ℕ) (hp : 1 ≤ p) :
    ((hstackRows (seq_parts_i u p n_e1 n_i1 T0 T deltaT n order base) p).getD 0 []).length =
      p * n_i1 := by
  rw [hstackRows, getD_range_map _ p 0 hp, seq_parts_i, List.map_map]
  rw [List.length_flatten, List.map_map]
  have hmap : (List.range p).map
      (List.length ∘ (fun m => m.getD 0 []) ∘ fun i =>
        (build_seqs u p n_e1 n_i1 (T0 + deltaT * ((order.getD i 0 : ℕ) : ℚ))
          (T + deltaT * ((order.getD i 0 : ℕ) : ℚ)) n
          (base + i * (p * ((n_e1 + n_i1) * n)))).2) =
      (List.range p).map (fun _ => n_i1) := by
    refine List.map_congr_left ?_
    intro i _
    simp only [Function.comp]
    exact build_seqs_snd_getD_length u p n_e1 n_i1 _ _ n _ 0 hp
  rw [hmap, sum_map_const_range]

lemma seqPattern_attr_error_e (u : ℕ → ℚ) (p N_e N_i : ℕ) (T0 T : ℚ) (n : ℕ)
    (deltaT : ℚ) (jp : ℕ) (order : List ℕ) (hp : 1 ≤ p) (hrem : 0 < N_e % p) :
    seqPattern u p N_e N_i T0 T n deltaT jp order = Except.error attrErrMsg := by
  rw [seqPattern]
  rw [seq_se_row0_length u p (N_e / p) (N_i / p) T0 T deltaT n order _ hp]
  have hmod := Nat.mod_add_div N_e p
  have hlt := Nat.mod_lt N_e (show 0 < p from hp)
  rw [if_pos (by omega)]

lemma seqPattern_ok (u : ℕ → ℚ) (p N_e N_i : ℕ) (T0 T : ℚ) (n : ℕ)
    (deltaT : ℚ) (jp : ℕ) (order : List ℕ) (hp : 1 ≤ p)
    (he : N_e % p = 0) (hi : N_i % p = 0) :
    ∃ v, seqPattern u p N_e N_i T0 T n deltaT jp order = Except.ok v := by
  rw [seqPattern]
  rw [seq_se_row0_length u p (N_e / p) (N_i / p) T0 T deltaT n order _ hp,
    seq_si_row0_length u p (N_e / p) (N_i / p) T0 T deltaT n order _ hp]
  have hmod_e := Nat.mod_add_div N_e p
  have hmod_i := Nat.mod_add_div N_i p
  rw [if_neg (by omega), if_neg (by omega), if_neg (by omega), if_neg (by omega)]
  exact ⟨_, rfl⟩

lemma mapM_ok_of_forall {α β : Type} (f : α → Except String β) :
    ∀ l : List α, (∀ a ∈ l, ∃ b, f a = Except.ok b) →
      ∃ bs, l.mapM f = Except.ok bs := by
  intro l
  induction l with
  | nil => intro _; exact ⟨[], rfl⟩
  | cons a as ih =>
    intro h
    obtain ⟨b, hb⟩ := h a (by simp)
    obtain ⟨bs, hbs⟩ := ih (fun x hx => h x (by simp [hx]))
    refine ⟨b :: bs, ?_⟩
    rw [List.mapM_cons, hb, hbs]
    rfl

lemma mapM_error_of_head {α β : Type} (f : α → Except String β) (a : α) (l : List α)
    (e : String) (h : f a = Except.error e) :
    (a :: l).mapM f = Except.error e := by
  rw [List.mapM_cons, h]
  rfl

/-- C10: for every `p ≥ 1` and any synapse counts, `assoc_rates_time_squence`
returns `p!` copies of the single row `re[0]` (resp. `ri[0]`): the returned
rate ensemble is `List.replicate (p!)` of one vector, carrying no
information that distinguishes the `p!` permutations. -/
theorem c10_identical_patterns :
    ∀ (u : ℕ → ℚ) (p N_e N_i : ℕ) (r_mean r_max : ℚ), 1 ≤ p →
      assoc_rates_time_squence u p N_e N_i r_mean r_max =
        Except.ok
          (List.replicate (Nat.factorial p) ((time_re u p N_e N_i r_mean r_max).getD 0 []),
           List.replicate (Nat.factorial p) ((time_ri u p N_e N_i r_mean r_max).getD 0 [])) :=
  fun u p N_e N_i r_mean r_max hp => time_squence_ok u p N_e N_i r_mean r_max hp

/-- Witness for C10 at `p = 2`, `N_e = N_i = 4`. -/
theorem c10_witness :
    1 ≤ 2 ∧
    assoc_rates_time_squence (fun _ => 1/2) 2 4 4 1 2 =
      Except.ok
        (List.replicate (Nat.factorial 2) ((time_re (fun _ => 1/2) 2 4 4 1 2).getD 0 []),
         List.replicate (Nat.factorial 2) ((time_ri (fun _ => 1/2) 2 4 4 1 2).getD 0 [])) :=
  ⟨by norm_num, c10_identical_patterns (fun _ => 1/2) 2 4 4 1 2 (by norm_num)⟩

/-- C5: for `num = p*p` with `p = int(sqrt(num))`, `assoc_rates` returns
excitatory and inhibitory rate lists of length exactly `num`, and its
pattern `(j, k)` (position `j*p + k`) is the concatenation of the
feature-`j` rates on the first half of the synapses with the feature-`k`
rates on the second half; `assoc_rates_time_squence(p, ...)` returns rate
lists of length exactly `p!`. -/
theorem c5_assoc_pattern_counts :
    (∀ (u : ℕ → ℚ) (num N_e N_i : ℕ) (r_mean r_max : ℚ),
      num = Nat.sqrt num * Nat.sqrt num →
      (assoc_rates u num N_e N_i r_mean r_max).1.length = num ∧
      (assoc_rates u num N_e N_i r_mean r_max).2.length = num ∧
      ∀ j k, j < Nat.sqrt num → k < Nat.sqrt num →
        (assoc_rates u num N_e N_i r_mean r_max).1.getD (j * Nat.sqrt num + k) [] =
          (assoc_re1 u num N_e N_i r_mean r_max).getD j [] ++
            (assoc_re2 u num N_e N_i r_mean r_max).getD k [])
    ∧ (∀ (u : ℕ → ℚ) (p N_e N_i : ℕ) (r_mean r_max : ℚ), 1 ≤ p →
        ∃ v, assoc_rates_time_squence u p N_e N_i r_mean r_max = Except.ok v ∧
          v.1.length = Nat.factorial p ∧ v.2.length = Nat.factorial p) := by
  constructor
  · intro u num N_e N_i r_mean r_max hnum
    refine ⟨?_, ?_, ?_⟩
    · rw [assoc_rates]
      dsimp only
      rw [List.length_flatten, List.map_map]
      have hmap : (List.range (Nat.sqrt num)).map
          (List.length ∘ fun j => (List.range (Nat.sqrt num)).map
            (fun k => (assoc_re1 u num N_e N_i r_mean r_max).getD j [] ++
              (assoc_re2 u num N_e N_i r_mean r_max).getD k [])) =
          (List.range (Nat.sqrt num)).map (fun _ => Nat.sqrt num) :=
        List.map_congr_left (fun j _ => by simp [Function.comp])
      rw [hmap, sum_map_const_range]
      exact hnum.symm
    · rw [assoc_rates]
      dsimp only
      rw [List.length_flatten, List.map_map]
      have hmap : (List.range (Nat.sqrt num)).map
          (List.length ∘ fun j => (List.range (Nat.sqrt num)).map
            (fun k => (assoc_ri1 u num N_e N_i r_mean r_max).getD j [] ++
              (assoc_ri2 u num N_e N_i r_mean r_max).getD k [])) =
          (List.range (Nat.sqrt num)).map (fun _ => Nat.sqrt num) :=
        List.map_congr_left (fun j _ => by simp [Function.comp])
      rw [hmap, sum_map_const_range]
      exact hnum.symm
    · intro j k hj hk
      rw [assoc_rates]
      dsimp only
      have hblocks := flatten_getD_blocks (Nat.sqrt num) ([] : List ℚ)
        ((List.range (Nat.sqrt num)).map
          (fun j => (List.range (Nat.sqrt num)).map
            (fun k => (assoc_re1 u num N_e N_i r_mean r_max).getD j [] ++
              (assoc_re2 u num N_e N_i r_mean r_max).getD k [])))
        j k (by simpa using hj) hk ?_
      · rw [hblocks, getD_range_map _ _ j hj, getD_range_map _ _ k hk]
      · intro b hb
        obtain ⟨j2, _, rfl⟩ := List.mem_map.mp hb
        simp
  · intro u p N_e N_i r_mean r_max hp
    refine ⟨_, time_squence_ok u p N_e N_i r_mean r_max hp, ?_, ?_⟩ <;>
      simp

/-- Witness for C5 at `num = 4` (`p = 2`), `N_e = N_i = 2`. -/
theorem c5_witness :
    (4 = Nat.sqrt 4 * Nat.sqrt 4) ∧ 1 ≤ 2 ∧
    (assoc_rates (fun _ => 1/2) 4 2 2 1 2).1.length = 4 ∧
    (∃ v, assoc_rates_time_squence (fun _ => 1/2) 2 2 2 1 2 = Except.ok v ∧
      v.1.length = Nat.factorial 2 ∧ v.2.length = Nat.factorial 2) := by
  have hsq : 4 = Nat.sqrt 4 * Nat.sqrt 4 := by norm_num
  exact ⟨hsq, by norm_num,
    (c5_assoc_pattern_counts.1 (fun _ => 1/2) 4 2 2 1 2 hsq).1,
    c5_assoc_pattern_counts.2 (fun _ => 1/2) 2 2 2 1 2 (by norm_num)⟩

/-- C4 (code bug): at `p = 2`, `N_e = 3`, `N_i = 2` the excitatory
remainder is `1 ≤ p`, which the claimed policy tolerates by padding; the
source instead executes `se[j].append(...)` on a NumPy array inside the
padding loop, and the call fails with an `AttributeError` (NumPy arrays
have no `append` method).  The guarded `ValueError` branch is unreachable:
the remainder `N_e - p*(N_e//p) = N_e % p` is always `< p`. -/
theorem c4_code_bug_eval :
    assoc_seqs_time_sequence (fun _ => 1/2) 2 3 2 0 100 1 20 =
      Except.error attrErrMsg := by
  rw [assoc_seqs_time_sequence]
  have hperm : permutationsOf (List.range 2) = [[0, 1], [1, 0]] := by decide
  rw [hperm]
  have henum : ([[0, 1], [1, 0]] : List (List ℕ)).enum = [(0, [0, 1]), (1, [1, 0])] := by
    decide
  rw [henum]
  have herr : ((fun jo : ℕ × List ℕ =>
      seqPattern (fun _ => 1/2) 2 3 2 0 100 1 20 jo.1 jo.2) (0, [0, 1])) =
      Except.error attrErrMsg :=
    seqPattern_attr_error_e (fun _ => 1/2) 2 3 2 0 100 1 20 0 [0, 1]
      (by norm_num) (by norm_num)
  have hmap := mapM_error_of_head
    (fun jo : ℕ × List ℕ => seqPattern (fun _ => 1/2) 2 3 2 0 100 1 20 jo.1 jo.2)
    (0, [0, 1]) [(1, [1, 0])] attrErrMsg herr
  rw [hmap]

/-- C3 (code bug): `gen_poisson_spikes` with fewer rate entries than
windows reaches `warnings.warn(...)`, but the module never imports
`warnings`: the call raises a `NameError` instead of warning and
continuing (and the `np.append(FR, zeros)` that follows discards its
result, so no actual zero-padding would occur either). -/
theorem c3_code_bug_eval :
    gen_poisson_spikes (fun _ => (1:ℚ)) [] 10 (1/40) 250 5 0 =
      Except.error warnNameErrMsg := by
  rw [gen_poisson_spikes]
  have hlen : (arange 0 ((250:ℚ) + 10) 10).length = 26 := by
    rw [arange, if_pos (by norm_num), List.length_map, List.length_range]
    norm_num
    rfl
  have hc : ([] : List ℚ).length < (arange 0 ((250:ℚ) + 10) 10).length - 1 := by
    simp [hlen]
  rw [if_pos hc]

/-! ### Lemmas for the non-homogeneous Poisson generator -/

lemma gauss_spike_time_peak (sigma : ℝ) :
    gauss_spike_time 0 [0] sigma = 1 / Real.sqrt (2 * Real.pi * sigma ^ 2) := by
  simp [gauss_spike_time, Real.exp_zero]

lemma gauss_spike_time_double (sigma : ℝ) :
    gauss_spike_time 50 [50, 50] sigma = 2 * (1 / Real.sqrt (2 * Real.pi * sigma ^ 2)) := by
  simp [gauss_spike_time, Real.exp_zero]
  ring

lemma r_max_concrete :
    PreSyn.r_max ⟨0, 1, none⟩ 0 100 1 1 [50, 50] = 50 * (1 / Real.sqrt (2 * Real.pi)) := by
  rw [PreSyn.r_max, if_pos (by norm_num)]
  rw [gauss_spike_time_peak]
  norm_num

lemma rate_concrete :
    PreSyn.rate ⟨0, 1, none⟩ 50 0 0 0 100 1 1 [50, 50] =
      100 * (1 / Real.sqrt (2 * Real.pi)) := by
  rw [PreSyn.rate, if_neg (by norm_num), if_pos (by norm_num), if_neg (by norm_num),
    if_pos (by norm_num)]
  rw [gauss_spike_time_double]
  norm_num
  ring

lemma ratio_gt_one_concrete :
    1 < PreSyn.rate ⟨0, 1, none⟩ 50 0 0 0 100 1 1 [50, 50] /
        PreSyn.r_max ⟨0, 1, none⟩ 0 100 1 1 [50, 50] := by
  rw [rate_concrete, r_max_concrete]
  have hs : 0 < Real.sqrt (2 * Real.pi) := Real.sqrt_pos.mpr (by positivity)
  have hdiv : (100 * (1 / Real.sqrt (2 * Real.pi))) /
      (50 * (1 / Real.sqrt (2 * Real.pi))) = 2 := by
    field_simp
    norm_num
  rw [hdiv]
  norm_num

lemma acceptedTimes_single_accepts (P : PreSyn) (t_on t_off stim_on stim_off s r : ℝ)
    (spk : List ℝ) (t uu : ℝ)
    (h : uu ≤ P.rate t t_on t_off stim_on stim_off s r spk /
      P.r_max stim_on stim_off s r spk) :
    acceptedTimes P t_on t_off stim_on stim_off s r spk [(t, uu)] = [t] := by
  rw [acceptedTimes, if_pos h, acceptedTimes]
  rfl

/-- C1 (amended): `PreSyn.spike_train` contains no error branch at all —
every call returns normally with the sorted accepted candidates — and a
candidate whose acceptance ratio `rate(t)/r_max` exceeds `1` is accepted
for every uniform draw `u ≤ 1` (in particular for every draw of
`np.random.rand`, which lies in `[0, 1)`): an acceptance ratio above `1`
is silently accepted, never surfaced as an assertion or fatal error. -/
theorem c1_amended_no_error_branch :
    (∀ (P : PreSyn) (t_on t_off stim_on stim_off s r : ℝ) (spk cands us : List ℝ),
      ∃ l, P.spike_train t_on t_off stim_on stim_off s r spk cands us = Except.ok l)
    ∧ (∀ (P : PreSyn) (t_on t_off stim_on stim_off s r : ℝ) (spk : List ℝ) (t uu : ℝ),
        uu ≤ 1 →
        1 < P.rate t t_on t_off stim_on stim_off s r spk /
          P.r_max stim_on stim_off s r spk →
        acceptedTimes P t_on t_off stim_on stim_off s r spk [(t, uu)] = [t]) := by
  constructor
  · intro P t_on t_off stim_on stim_off s r spk cands us
    exact ⟨_, rfl⟩
  · intro P t_on t_off stim_on stim_off s r spk t uu huu hratio
    exact acceptedTimes_single_accepts P t_on t_off stim_on stim_off s r spk t uu
      (le_of_lt (lt_of_le_of_lt huu hratio))

/-- C1 counterexample: with `r_0 = 0`, `sigma = 1`, `s = 1`, `r = 1`,
`stim_on = 0`, `stim_off = 100` and the two coincident precise spike times
`[50, 50]`, the instantaneous rate at the candidate `t = 50` is twice the
computed envelope `r_max` (the envelope assumes well-separated centers),
yet `spike_train` raises no error: the candidate is accepted and returned
(`Except.ok [50]` for the uniform draw `1/2`), contradicting the claim
that an acceptance ratio above `1` surfaces as an assertion failure. -/
theorem c1_counterexample :
    1 < PreSyn.rate ⟨0, 1, none⟩ 50 0 0 0 100 1 1 [50, 50] /
        PreSyn.r_max ⟨0, 1, none⟩ 0 100 1 1 [50, 50] ∧
    PreSyn.spike_train ⟨0, 1, none⟩ 0 0 0 100 1 1 [50, 50] [50] [1/2] =
      Except.ok [50] := by
  refine ⟨ratio_gt_one_concrete, ?_⟩
  rw [PreSyn.spike_train]
  show Except.ok (List.insertionSort (· ≤ ·)
    (acceptedTimes ⟨0, 1, none⟩ 0 0 0 100 1 1 [50, 50] [((50:ℝ), (1/2:ℝ))])) =
    Except.ok [(50:ℝ)]
  rw [acceptedTimes_single_accepts ⟨0, 1, none⟩ 0 0 0 100 1 1 [50, 50] 50 (1/2)
    (le_of_lt (lt_trans (by norm_num) ratio_gt_one_concrete))]
  congr 1

/-- Witness for C1 at the counterexample configuration. -/
theorem c1_witness :
    ((1:ℝ)/2 ≤ 1) ∧
    (1 < PreSyn.rate ⟨0, 1, none⟩ 50 0 0 0 100 1 1 [50, 50] /
        PreSyn.r_max ⟨0, 1, none⟩ 0 100 1 1 [50, 50]) ∧
    (∃ l, PreSyn.spike_train ⟨0, 1, none⟩ 0 0 0 100 1 1 [50, 50] [50] [1/2] =
      Except.ok l) ∧
    acceptedTimes ⟨0, 1, none⟩ 0 0 0 100 1 1 [50, 50] [(50, 1/2)] = [50] :=
  ⟨by norm_num, ratio_gt_one_concrete,
   c1_amended_no_error_branch.1 ⟨0, 1, none⟩ 0 0 0 100 1 1 [50, 50] [50] [1/2],
   c1_amended_no_error_branch.2 ⟨0, 1, none⟩ 0 0 0 100 1 1 [50, 50] 50 (1/2)
     (by norm_num) ratio_gt_one_concrete⟩

end Sequences
